import Mathlib

/-!
Verification of the deck.gl HDR export utilities (`hdr-render-loop.ts`,
`exr-writer.ts`, `gpu-readback.ts`, `hdr-exporter.ts`).

The TypeScript sources are shallowly embedded:
* machine integers are `Nat` with explicit `% 2 ^ w` / bit masks where the
  source truncates (`DataView.setUint32`, JS `>>`, `&`);
* byte buffers (`ArrayBuffer` / `Uint8Array`) are `List Nat` of byte values;
* `Float32Array` pixel inputs are represented by their IEEE-754 binary32 bit
  patterns (the EXR writer only ever reinterprets the bits, via `floatToHalf`
  or `setFloat32`, so the bit pattern is the faithful representation);
* the stateful render loop is embedded as a function producing an explicit
  trace of state mutations (`LoopAction`) applied by `applyTrace`.
-/

set_option maxRecDepth 100000

namespace DeckGL

/-- Byte strings: each entry is a byte value `< 256`. -/
abbrev Bytes := List Nat

/-! ## `floatToHalf` (exr-writer.ts)

The source reads the binary32 bit pattern of its argument into a signed
32-bit integer `f` and manipulates it with `>>`, `&`, `|`.  We take the
(non-negative) bit pattern `f < 2 ^ 32` directly.  JS arithmetic right
shifts combined with the masks used (`(f >> 16) & 0x8000`,
`(f >> 23) & 0xff`, `f & 0x007fffff`) extract exactly the same bits as the
logical `Nat` shifts below, because every mask discards the sign-extension
bits. -/

/-- Bit-level embedding of `floatToHalf` from exr-writer.ts: converts a
binary32 bit pattern to the binary16 bit pattern the source computes. -/
def floatToHalf (f : Nat) : Nat :=
  let sign := (f >>> 16) &&& 0x8000
  let exponent : Int := (((f >>> 23) &&& 0xff : Nat) : Int) - 127 + 15
  let mantissa := f &&& 0x007fffff
  if exponent ≤ 0 then
    if exponent < -10 then
      sign
    else
      let m := (mantissa ||| 0x00800000) >>> (1 - exponent).toNat
      sign ||| (m >>> 13)
  else if exponent = 0xff - 127 + 15 then
    if mantissa = 0 then
      sign ||| 0x7c00
    else
      sign ||| 0x7c00 ||| (mantissa >>> 13)
  else if exponent > 30 then
    sign ||| 0x7c00
  else
    sign ||| (exponent.toNat <<< 10) ||| (mantissa >>> 13)

/-- Sign field extracted by `floatToHalf` (bit 31 moved to bit 15). -/
def sign32 (f : Nat) : Nat := (f >>> 16) &&& 0x8000

/-- Rebiased exponent as computed by `floatToHalf`. -/
def rebiasedExponent (f : Nat) : Int :=
  (((f >>> 23) &&& 0xff : Nat) : Int) - 127 + 15

lemma sign32_cases (f : Nat) : sign32 f = 0 ∨ sign32 f = 0x8000 := by
  have h : sign32 f = ((f >>> 16).testBit 15).toNat * 2 ^ 15 := by
    simpa [sign32] using Nat.and_two_pow (f >>> 16) 15
  rcases Bool.eq_false_or_eq_true ((f >>> 16).testBit 15) with hb | hb <;>
    simp [h, hb]

lemma floatToHalf_underflow (f : Nat) (h : rebiasedExponent f < -10) :
    floatToHalf f = sign32 f := by
  have h0 : rebiasedExponent f ≤ 0 := by omega
  simp only [floatToHalf, sign32, rebiasedExponent] at *
  rw [if_pos h0, if_pos h]

lemma floatToHalf_nan_branch (f : Nat)
    (he : (f >>> 23) &&& 0xff = 0xff) (hm : f &&& 0x007fffff ≠ 0) :
    floatToHalf f = sign32 f ||| 0x7c00 ||| ((f &&& 0x007fffff) >>> 13) := by
  simp only [floatToHalf, sign32, he, hm]
  norm_num

lemma mantissa13_lt (f : Nat) : (f &&& 0x007fffff) >>> 13 < 1024 := by
  have h1 : f &&& 0x007fffff < 2 ^ 23 :=
    Nat.and_lt_two_pow f (by norm_num)
  have := Nat.shiftRight_eq_div_pow (f &&& 0x007fffff) 13
  rw [this]
  omega

lemma or_7c00_small {a : Nat} (ha : a < 1024) : 0x7c00 ||| a = 0x7c00 + a := by
  have : ∀ b < 1024, (0x7c00 ||| b) = 0x7c00 + b := by decide
  exact this a ha

lemma or_fc00_small {a : Nat} (ha : a < 1024) :
    0x8000 ||| 0x7c00 ||| a = 0xfc00 + a := by
  have : ∀ b < 1024, (0x8000 ||| 0x7c00 ||| b) = 0xfc00 + b := by decide
  exact this a ha

/-- In the NaN branch with a mantissa whose top 10 bits are nonzero, the
result has all exponent bits set and a nonzero mantissa field. -/
lemma floatToHalf_nan_top_bits (f : Nat)
    (he : (f >>> 23) &&& 0xff = 0xff) (hm : (f &&& 0x007fffff) >>> 13 ≠ 0) :
    (floatToHalf f >>> 10) &&& 0x1f = 0x1f ∧ floatToHalf f &&& 0x3ff ≠ 0 := by
  have hm0 : f &&& 0x007fffff ≠ 0 := by
    intro h0
    exact hm (by simp [h0])
  rw [floatToHalf_nan_branch f he hm0]
  set m13 := (f &&& 0x007fffff) >>> 13 with hm13
  have hlt : m13 < 1024 := mantissa13_lt f
  rcases sign32_cases f with hs | hs
  · rw [hs]
    simp only [Nat.zero_or]
    rw [or_7c00_small hlt]
    constructor
    · have hdiv : (0x7c00 + m13) >>> 10 = 31 := by
        rw [Nat.shiftRight_eq_div_pow]
        omega
      rw [hdiv]
      decide
    · have : (0x7c00 + m13) &&& 0x3ff = (0x7c00 + m13) % 1024 := by
        have := Nat.and_pow_two_sub_one_eq_mod (0x7c00 + m13) 10
        norm_num at this
        exact this
      rw [this]
      omega
  · rw [hs, or_fc00_small hlt]
    constructor
    · have hdiv : (0xfc00 + m13) >>> 10 = 63 := by
        rw [Nat.shiftRight_eq_div_pow]
        omega
      rw [hdiv]
      decide
    · have : (0xfc00 + m13) &&& 0x3ff = (0xfc00 + m13) % 1024 := by
        have := Nat.and_pow_two_sub_one_eq_mod (0xfc00 + m13) 10
        norm_num at this
        exact this
      rw [this]
      omega

/-- C1 counterexample: the binary32 bit pattern 0x7F800001 is a NaN
(exponent bits all ones, mantissa nonzero), yet `floatToHalf` maps it to
0x7C00 — positive infinity, whose mantissa bits are all zero.  The claim
that every NaN input yields a nonzero half mantissa is therefore false. -/
theorem floatToHalf_nan_payload_lost :
    ((0x7F800001 >>> 23) &&& 0xff = 0xff) ∧
    (0x7F800001 &&& 0x007fffff ≠ 0) ∧
    floatToHalf 0x7F800001 = 0x7C00 ∧
    (0x7C00 &&& 0x3ff = 0) := by
  refine ⟨by decide, by decide, ?_, by decide⟩
  decide

/-- C1 (amended): `floatToHalf` reproduces every listed boundary value
(0.0→0x0000, -0.0→0x8000, 1.0→0x3C00, 65504.0→0x7BFF, 70000.0→0x7C00,
+∞→0x7C00, 2^-24→0x0001), maps every input whose rebiased exponent is
below -10 to its signed zero, and maps every NaN whose mantissa has a
nonzero top-10-bit part (mantissa ≥ 2^13) to a half with all exponent bits
set and a nonzero mantissa.  (NaNs with mantissa < 2^13 collapse to signed
infinity, per `floatToHalf_nan_payload_lost`.)  Inputs are given as their
binary32 bit patterns. -/
theorem floatToHalf_boundary_values :
    floatToHalf 0x00000000 = 0x0000 ∧
    floatToHalf 0x80000000 = 0x8000 ∧
    floatToHalf 0x3F800000 = 0x3C00 ∧
    floatToHalf 0x477FE000 = 0x7BFF ∧
    floatToHalf 0x4788B800 = 0x7C00 ∧
    floatToHalf 0x7F800000 = 0x7C00 ∧
    floatToHalf 0x33800000 = 0x0001 ∧
    (∀ f : Nat, (f >>> 23) &&& 0xff = 0xff → (f &&& 0x007fffff) >>> 13 ≠ 0 →
      (floatToHalf f >>> 10) &&& 0x1f = 0x1f ∧ floatToHalf f &&& 0x3ff ≠ 0) ∧
    (∀ f : Nat, rebiasedExponent f < -10 →
      floatToHalf f = sign32 f ∧ (sign32 f = 0 ∨ sign32 f = 0x8000)) := by
  refine ⟨by decide, by decide, by decide, by decide, by decide, by decide,
    by decide, ?_, ?_⟩
  · intro f he hm
    exact floatToHalf_nan_top_bits f he hm
  · intro f h
    exact ⟨floatToHalf_underflow f h, sign32_cases f⟩

/-! ## `writeEXR` (exr-writer.ts)

The writer fills a single `ArrayBuffer` through `DataView` writes at a
monotonically advancing offset, each write advancing the offset by exactly
the number of bytes written, and the writes exactly fill the allocated
`totalSize`.  The embedding therefore produces the byte list as the
concatenation of the successive writes.  Multi-byte values are written
little-endian; `setUint32`/`setInt32` truncate to 32 bits, which `le32`
performs via the `% 256` on every byte.  Strings (attribute names, types,
channel names) are ASCII here, where UTF-8 encoding is the identity on
code points. -/

/-- ASCII byte encoding of a Lean string literal (all names used are ASCII). -/
def ascii (s : String) : Bytes := s.data.map Char.toNat

/-- Little-endian bytes of a 16-bit value (`DataView.setUint16`). -/
def le16 (v : Nat) : Bytes := [v % 256, v / 256 % 256]

/-- Little-endian bytes of a 32-bit value (`DataView.setUint32`, truncating). -/
def le32 (v : Nat) : Bytes :=
  [v % 256, v / 256 % 256, v / 65536 % 256, v / 16777216 % 256]

/-- Little-endian bytes of a signed 32-bit value (`DataView.setInt32`):
two's complement truncation. -/
def le32i (v : Int) : Bytes := le32 (v % 4294967296).toNat

/-- Pixel type option of the EXR writer. -/
inductive EXRPixelType where
  | half
  | float
  deriving DecidableEq, Repr

/-- Bytes per sample: 2 for 'half', 4 for 'float' (`pixelSize` in source). -/
def pixelSizeOf : EXRPixelType → Nat
  | .half => 2
  | .float => 4

/-- EXR pixel-type tag written into the channel list (HALF=1, FLOAT=2). -/
def pixelTypeCode : EXRPixelType → Nat
  | .half => 1
  | .float => 2

/-- Null-terminated byte string (`stringToBytes` in source). -/
def stringToBytes (s : Bytes) : Bytes := s ++ [0]

/-- Header attribute record: name, type tag, little-endian byte length,
value (`writeAttribute` in source). -/
def writeAttribute (name ty value : Bytes) : Bytes :=
  stringToBytes name ++ stringToBytes ty ++ le32 value.length ++ value

/-- ASCII uppercase of one byte (faithful to `String.toUpperCase` on the
ASCII channel names the writer compares against). -/
def jsToUpper (b : Nat) : Nat := if 97 ≤ b ∧ b ≤ 122 then b - 32 else b

/-- Uppercase a byte string. -/
def toUpperBytes (s : Bytes) : Bytes := s.map jsToUpper

/-- Embedding of `getChannelIndex`: R=0, G=1, B=2, A=3, default 0. -/
def getChannelIndex (channel : Bytes) : Nat :=
  let u := toUpperBytes channel
  if u = ascii "R" then 0
  else if u = ascii "G" then 1
  else if u = ascii "B" then 2
  else if u = ascii "A" then 3
  else 0

/-- Lexicographic byte-string comparison, the order used by JS
`Array.prototype.sort()` on (ASCII) strings. -/
def lexLe : Bytes → Bytes → Bool
  | [], _ => true
  | _ :: _, [] => false
  | a :: as, b :: bs =>
    if a < b then true else if b < a then false else lexLe as bs

/-- Insert into a lexicographically sorted list. -/
def insertSorted (x : Bytes) : List Bytes → List Bytes
  | [] => [x]
  | y :: ys => if lexLe x y then x :: y :: ys else y :: insertSorted x ys

/-- Embedding of `[...channels].sort()`: sort channel names
lexicographically (insertion sort; the order is what matters). -/
def sortChannels : List Bytes → List Bytes
  | [] => []
  | c :: cs => insertSorted c (sortChannels cs)

/-- One channel entry of the chlist attribute: null-terminated name,
pixel-type int32, pLinear byte = 1, 3 reserved bytes, xSampling = 1,
ySampling = 1. -/
def buildChannelEntry (name : Bytes) (pt : EXRPixelType) : Bytes :=
  stringToBytes name ++ le32 (pixelTypeCode pt) ++ [1, 0, 0, 0] ++
    le32 1 ++ le32 1

/-- Embedding of `buildChannelList`: sorted channel entries followed by a
null terminator. -/
def buildChannelList (channels : List Bytes) (pt : EXRPixelType) : Bytes :=
  ((sortChannels channels).map (fun n => buildChannelEntry n pt)).flatten ++ [0]

/-- Embedding of `buildBox2i`: four little-endian int32 values. -/
def buildBox2i (xMin yMin xMax yMax : Int) : Bytes :=
  le32i xMin ++ le32i yMin ++ le32i xMax ++ le32i yMax

/-- Embedding of `buildHeader`: the eight attributes in source order,
terminated by a null byte.  The float32 constants 1.0 and 0.0 are written
as their bit patterns 0x3F800000 and 0. -/
def buildHeader (width height : Nat) (channels : List Bytes)
    (pt : EXRPixelType) : Bytes :=
  writeAttribute (ascii "channels") (ascii "chlist")
      (buildChannelList channels pt) ++
  writeAttribute (ascii "compression") (ascii "compression") [0] ++
  writeAttribute (ascii "dataWindow") (ascii "box2i")
      (buildBox2i 0 0 ((width : Int) - 1) ((height : Int) - 1)) ++
  writeAttribute (ascii "displayWindow") (ascii "box2i")
      (buildBox2i 0 0 ((width : Int) - 1) ((height : Int) - 1)) ++
  writeAttribute (ascii "lineOrder") (ascii "lineOrder") [0] ++
  writeAttribute (ascii "pixelAspectRatio") (ascii "float")
      (le32 0x3F800000) ++
  writeAttribute (ascii "screenWindowCenter") (ascii "v2f")
      (le32 0 ++ le32 0) ++
  writeAttribute (ascii "screenWindowWidth") (ascii "float")
      (le32 0x3F800000) ++
  [0]

/-- Bytes of one sample: half samples go through `floatToHalf` and
`setUint16`, float samples are the binary32 bits via `setFloat32`. -/
def sampleBytes (pt : EXRPixelType) (bits : Nat) : Bytes :=
  match pt with
  | .half => le16 (floatToHalf bits)
  | .float => le32 bits

/-- Canonical JS NaN bit pattern: reading `pixels[pixelIndex]` out of range
yields `undefined`, which coerces to NaN when stored. -/
def canonicalNaN : Nat := 0x7FC00000

/-- One channel's row of samples inside a scanline: the source reads
`pixels[(y * width + x) * 4 + channelIndex]` for x = 0..width-1 (the input
stride is hard-coded to 4). -/
def channelRow (pixels : List Nat) (width : Nat) (pt : EXRPixelType)
    (y ci : Nat) : Bytes :=
  ((List.range width).map (fun x =>
    sampleBytes pt (pixels.getD ((y * width + x) * 4 + ci) canonicalNaN))).flatten

/-- Scanline pixel payload: channels in sorted order, each channel's full
row contiguous. -/
def scanlinePayload (pixels : List Nat) (width : Nat)
    (channels : List Bytes) (pt : EXRPixelType) (y : Nat) : Bytes :=
  ((sortChannels channels).map (fun ch =>
    channelRow pixels width pt y (getChannelIndex ch))).flatten

/-- Payload byte length of one scanline (`scanlineDataSize` in source). -/
def scanlineDataSize (width numChannels : Nat) (pt : EXRPixelType) : Nat :=
  width * numChannels * pixelSizeOf pt

/-- One scanline record: int32 row index, uint32 payload size, payload. -/
def scanlineRecord (pixels : List Nat) (width : Nat)
    (channels : List Bytes) (pt : EXRPixelType) (y : Nat) : Bytes :=
  le32 y ++ le32 (scanlineDataSize width channels.length pt) ++
    scanlinePayload pixels width channels pt y

/-- The i-th offset-table entry: the running `scanlineOffset`, written as
`setUint32` low word plus an always-zero high word. -/
def offsetTableEntry (headerLen height recordSize i : Nat) : Bytes :=
  le32 (8 + headerLen + 8 * height + i * recordSize) ++ le32 0

/-- The scanline offset table: one 8-byte entry per row. -/
def offsetTable (headerLen height recordSize : Nat) : Bytes :=
  ((List.range height).map (offsetTableEntry headerLen height recordSize)).flatten

/-- Options of `writeEXR` (`WriteEXROptions` in source). -/
structure WriteEXROptions where
  pixelType : Option EXRPixelType
  channels : Option (List Bytes)

/-- Default channel list `['R', 'G', 'B', 'A']`. -/
def defaultChannels : List Bytes :=
  [ascii "R", ascii "G", ascii "B", ascii "A"]

/-- EXR magic constant. -/
def EXR_MAGIC : Nat := 0x01312f76

/-- EXR version word value 2 (version 2, no flags). -/
def EXR_VERSION_WORD : Nat := 2

/-- Embedding of `writeEXR`: magic, version, header, offset table, then
scanline records, concatenated exactly as the source's sequential
`DataView` writes fill the allocated buffer. -/
def writeEXR (pixels : List Nat) (width height : Nat)
    (options : WriteEXROptions) : Bytes :=
  let pixelType := options.pixelType.getD .half
  let channels := options.channels.getD defaultChannels
  let sds := scanlineDataSize width channels.length pixelType
  let header := buildHeader width height channels pixelType
  le32 EXR_MAGIC ++ le32 EXR_VERSION_WORD ++ header ++
    offsetTable header.length height (8 + sds) ++
    ((List.range height).map (fun y =>
      scanlineRecord pixels width channels pixelType y)).flatten

/-! ### Reading back slices of the output buffer -/

/-- Contiguous slice of a byte list. -/
def slice (l : Bytes) (pos len : Nat) : Bytes := (l.drop pos).take len

/-- Value of a little-endian byte list. -/
def leValue : Bytes → Nat
  | [] => 0
  | b :: bs => b + 256 * leValue bs

/-- Read a little-endian 32-bit value at a byte position. -/
def readLE32 (l : Bytes) (pos : Nat) : Nat := leValue (slice l pos 4)

/-- Read a little-endian 64-bit value at a byte position. -/
def readLE64 (l : Bytes) (pos : Nat) : Nat := leValue (slice l pos 8)

/-! ### Length lemmas for the writer -/

lemma length_le32 (v : Nat) : (le32 v).length = 4 := rfl

lemma length_sampleBytes (pt : EXRPixelType) (bits : Nat) :
    (sampleBytes pt bits).length = pixelSizeOf pt := by
  cases pt <;> rfl

lemma flatten_length_const {α : Type} (l : List (List α)) (n : Nat)
    (h : ∀ c ∈ l, c.length = n) : l.flatten.length = l.length * n := by
  induction l with
  | nil => simp
  | cons c cs ih =>
    simp only [List.flatten_cons, List.length_append, List.length_cons]
    rw [h c (by simp), ih (fun d hd => h d (by simp [hd]))]
    ring

lemma length_insertSorted (x : Bytes) (l : List Bytes) :
    (insertSorted x l).length = l.length + 1 := by
  induction l with
  | nil => rfl
  | cons y ys ih =>
    simp only [insertSorted]
    split <;> simp [ih]

lemma length_sortChannels (l : List Bytes) :
    (sortChannels l).length = l.length := by
  induction l with
  | nil => rfl
  | cons c cs ih => simp [sortChannels, length_insertSorted, ih]

lemma length_channelRow (pixels : List Nat) (width : Nat)
    (pt : EXRPixelType) (y ci : Nat) :
    (channelRow pixels width pt y ci).length = width * pixelSizeOf pt := by
  unfold channelRow
  rw [flatten_length_const _ (pixelSizeOf pt)]
  · simp
  · intro c hc
    simp only [List.mem_map] at hc
    obtain ⟨x, _, rfl⟩ := hc
    exact length_sampleBytes ..

lemma length_scanlinePayload (pixels : List Nat) (width : Nat)
    (channels : List Bytes) (pt : EXRPixelType) (y : Nat) :
    (scanlinePayload pixels width channels pt y).length =
      scanlineDataSize width channels.length pt := by
  unfold scanlinePayload scanlineDataSize
  rw [flatten_length_const _ (width * pixelSizeOf pt)]
  · rw [List.length_map, length_sortChannels]
    ring
  · intro c hc
    simp only [List.mem_map] at hc
    obtain ⟨ch, _, rfl⟩ := hc
    exact length_channelRow ..

lemma length_scanlineRecord (pixels : List Nat) (width : Nat)
    (channels : List Bytes) (pt : EXRPixelType) (y : Nat) :
    (scanlineRecord pixels width channels pt y).length =
      8 + scanlineDataSize width channels.length pt := by
  simp [scanlineRecord, le32, length_scanlinePayload]
  ring

lemma length_offsetTableEntry (hl h rs i : Nat) :
    (offsetTableEntry hl h rs i).length = 8 := rfl

lemma length_offsetTable (hl h rs : Nat) :
    (offsetTable hl h rs).length = h * 8 := by
  unfold offsetTable
  rw [flatten_length_const _ 8]
  · simp
  · intro c hc
    simp only [List.mem_map] at hc
    obtain ⟨i, _, rfl⟩ := hc
    rfl

/-- Header length of the output, as a function of the effective options. -/
def exrHeaderLength (width height : Nat) (options : WriteEXROptions) : Nat :=
  (buildHeader width height (options.channels.getD defaultChannels)
    (options.pixelType.getD .half)).length

/-- Size of one scanline record (8-byte record header plus payload). -/
def exrRecordSize (width : Nat) (options : WriteEXROptions) : Nat :=
  8 + scanlineDataSize width (options.channels.getD defaultChannels).length
    (options.pixelType.getD .half)

/-- Byte position of scanline i's record inside the output buffer:
magic+version (8) + header + offset table (8·height) + i records. -/
def exrRecordStart (width height : Nat) (options : WriteEXROptions)
    (i : Nat) : Nat :=
  8 + exrHeaderLength width height options + 8 * height +
    i * exrRecordSize width options

/-- C4 counterexample: `writeEXR` performs no argument validation.  With
width 0 (and with an empty channel list) it does not fail: it returns a
normal output buffer of the size given by the layout formula (347 resp.
275 bytes), refuting the claim that invalid arguments fail before the
output buffer is allocated. -/
theorem writeEXR_accepts_degenerate_args :
    (writeEXR [] 0 1 ⟨none, none⟩).length = 347 ∧
    (writeEXR [] 1 1 ⟨none, some []⟩).length = 275 := by
  constructor <;> decide

/-- C4 (amended): `writeEXR` has no failure path at all: for every input,
including zero width, zero height, and an empty channel list, it produces
a buffer of exactly the computed total size
magic(4) + version(4) + header + 8·height + height·recordSize. -/
theorem writeEXR_always_succeeds_with_total_size (pixels : List Nat)
    (width height : Nat) (options : WriteEXROptions) :
    (writeEXR pixels width height options).length =
      8 + exrHeaderLength width height options + 8 * height +
        height * exrRecordSize width options := by
  unfold writeEXR exrHeaderLength exrRecordSize
  simp only [List.length_append, length_le32, length_offsetTable]
  rw [flatten_length_const _ (8 + scanlineDataSize width
      (options.channels.getD defaultChannels).length
      (options.pixelType.getD .half))]
  · simp only [List.length_map, List.length_range]
    ring
  · intro c hc
    simp only [List.mem_map] at hc
    obtain ⟨y, _, rfl⟩ := hc
    exact length_scanlineRecord ..

/-! ### Indexing into the output buffer -/

lemma drop_append_len {α : Type} (a b : List α) (j : Nat) :
    (a ++ b).drop (a.length + j) = b.drop j := by
  rw [← List.drop_drop, List.drop_left]

lemma drop_append_le {α : Type} (a b : List α) (j : Nat) (h : j ≤ a.length) :
    (a ++ b).drop j = a.drop j ++ b := by
  rw [List.drop_append_eq_append_drop, Nat.sub_eq_zero_of_le h, List.drop_zero]

lemma flatten_drop_const {α : Type} (l : List (List α)) (n : Nat)
    (h : ∀ c ∈ l, c.length = n) :
    ∀ i ≤ l.length, l.flatten.drop (i * n) = (l.drop i).flatten := by
  induction l with
  | nil =>
    intro i hi
    have h0 : i = 0 := Nat.le_zero.mp (by simpa using hi)
    subst h0
    simp
  | cons c cs ih =>
    intro i hi
    match i with
    | 0 => simp
    | k + 1 =>
      have hc : c.length = n := h c (by simp)
      have hkn : (k + 1) * n = c.length + k * n := by rw [hc]; ring
      rw [List.flatten_cons, hkn, drop_append_len, List.drop_succ_cons]
      exact ih (fun d hd => h d (by simp [hd])) k (by simpa using hi)

lemma getD_map_range {α : Type} (f : Nat → List α) (h i : Nat) (hi : i < h) :
    ((List.range h).map f).getD i [] = f i := by
  have hlen : i < ((List.range h).map f).length := by simpa using hi
  rw [List.getD_eq_getElem?_getD, List.getElem?_eq_getElem hlen]
  simp

lemma flatten_drop_getD {α : Type} (l : List (List α)) (n i : Nat)
    (h : ∀ c ∈ l, c.length = n) (hi : i < l.length) :
    l.flatten.drop (i * n) = l.getD i [] ++ (l.drop (i + 1)).flatten := by
  rw [flatten_drop_const l n h i (le_of_lt hi), List.drop_eq_getElem_cons hi,
    List.flatten_cons]
  congr 1
  rw [List.getD_eq_getElem?_getD, List.getElem?_eq_getElem hi]
  rfl

lemma flatten_tail_drop {α : Type} (l : List (List α)) (t : List α)
    (n i : Nat) (h : ∀ c ∈ l, c.length = n) (hi : i < l.length) :
    (l.flatten ++ t).drop (i * n) =
      l.getD i [] ++ ((l.drop (i + 1)).flatten ++ t) := by
  rw [drop_append_le]
  · rw [flatten_drop_getD l n i h hi, List.append_assoc]
  · rw [flatten_length_const l n h]
    exact Nat.mul_le_mul (le_of_lt hi) (le_refl n)

lemma leValue_le32 (v : Nat) : leValue (le32 v) = v % 4294967296 := by
  simp only [le32, leValue]
  omega

lemma leValue_le64entry (v : Nat) :
    leValue (le32 v ++ le32 0) = v % 4294967296 := by
  simp only [le32, leValue, List.cons_append, List.nil_append]
  omega

/-- Decomposition of the output at the start of offset-table entry i. -/
lemma writeEXR_drop_entry (pixels : List Nat) (width height : Nat)
    (options : WriteEXROptions) (i : Nat) (hi : i < height) :
    ∃ t, (writeEXR pixels width height options).drop
        (8 + exrHeaderLength width height options + 8 * i) =
      offsetTableEntry (exrHeaderLength width height options) height
        (exrRecordSize width options) i ++ t := by
  unfold writeEXR exrHeaderLength exrRecordSize
  set channels := options.channels.getD defaultChannels with hch
  set pt := options.pixelType.getD .half with hpt
  set header := buildHeader width height channels pt with hhd
  set sds := scanlineDataSize width channels.length pt with hsds
  set records := ((List.range height).map (fun y =>
    scanlineRecord pixels width channels pt y)).flatten with hrec
  refine ⟨(((List.range height).drop (i + 1)).map
      (offsetTableEntry header.length height (8 + sds))).flatten ++ records, ?_⟩
  have hassoc : le32 EXR_MAGIC ++ le32 EXR_VERSION_WORD ++ header ++
      offsetTable header.length height (8 + sds) ++ records =
      (le32 EXR_MAGIC ++ le32 EXR_VERSION_WORD ++ header) ++
        (offsetTable header.length height (8 + sds) ++ records) := by
    simp [List.append_assoc]
  rw [hassoc]
  have hlen : (le32 EXR_MAGIC ++ le32 EXR_VERSION_WORD ++ header).length =
      8 + header.length := by
    simp [length_le32]
    omega
  have hidx : 8 + header.length + 8 * i =
      (le32 EXR_MAGIC ++ le32 EXR_VERSION_WORD ++ header).length + i * 8 := by
    rw [hlen]; ring
  rw [hidx, drop_append_len]
  unfold offsetTable
  rw [flatten_tail_drop _ _ 8 i ?hconst (by simpa using hi),
    getD_map_range _ _ _ hi, List.map_drop]
  case hconst =>
    intro c hc
    simp only [List.mem_map] at hc
    obtain ⟨k, _, rfl⟩ := hc
    rfl

/-- Decomposition of the output at the start of scanline record y. -/
lemma writeEXR_drop_record (pixels : List Nat) (width height : Nat)
    (options : WriteEXROptions) (y : Nat) (hy : y < height) :
    ∃ t, (writeEXR pixels width height options).drop
        (exrRecordStart width height options y) =
      scanlineRecord pixels width (options.channels.getD defaultChannels)
        (options.pixelType.getD .half) y ++ t := by
  unfold writeEXR exrRecordStart exrHeaderLength exrRecordSize
  set channels := options.channels.getD defaultChannels with hch
  set pt := options.pixelType.getD .half with hpt
  set header := buildHeader width height channels pt with hhd
  set sds := scanlineDataSize width channels.length pt with hsds
  refine ⟨(((List.range height).drop (y + 1)).map (fun z =>
    scanlineRecord pixels width channels pt z)).flatten, ?_⟩
  have hassoc : le32 EXR_MAGIC ++ le32 EXR_VERSION_WORD ++ header ++
      offsetTable header.length height (8 + sds) ++
      ((List.range height).map (fun z =>
        scanlineRecord pixels width channels pt z)).flatten =
      (le32 EXR_MAGIC ++ le32 EXR_VERSION_WORD ++ header ++
        offsetTable header.length height (8 + sds)) ++
        ((List.range height).map (fun z =>
          scanlineRecord pixels width channels pt z)).flatten := rfl
  rw [hassoc]
  have hlen : (le32 EXR_MAGIC ++ le32 EXR_VERSION_WORD ++ header ++
      offsetTable header.length height (8 + sds)).length =
      8 + header.length + 8 * height := by
    simp [length_le32, length_offsetTable]
    ring
  have hidx : 8 + header.length + 8 * height + y * (8 + sds) =
      (le32 EXR_MAGIC ++ le32 EXR_VERSION_WORD ++ header ++
        offsetTable header.length height (8 + sds)).length + y * (8 + sds) := by
    rw [hlen]
  rw [hidx, drop_append_len]
  have hconst : ∀ c ∈ (List.range height).map (fun z =>
      scanlineRecord pixels width channels pt z), c.length = 8 + sds := by
    intro c hc
    simp only [List.mem_map] at hc
    obtain ⟨z, _, rfl⟩ := hc
    exact length_scanlineRecord ..
  rw [flatten_drop_getD _ (8 + sds) y hconst (by simpa using hy),
    getD_map_range _ _ _ hy, List.map_drop]

/-- C7: for every 0 ≤ i < height the offset-table entry i is an 8-byte
little-endian value whose high four bytes are zero and whose value is
8 + headerSize + 8·height + i·(8 + width·numChannels·pixelSize), the byte
position of scanline i's record; the bytes found at that position are
exactly scanline i's record, so sequential reads through the table
reconstruct the pixel data written.  The file-size bound is the spec's
"files stay under 4 GiB" side condition (`setUint32` truncates above it). -/
theorem exr_offsetTable_points_to_scanlines (pixels : List Nat)
    (width height : Nat) (options : WriteEXROptions) (i : Nat)
    (hw : 0 < width) (hh : 0 < height) (hi : i < height)
    (hfit : 8 + exrHeaderLength width height options + 8 * height +
      height * exrRecordSize width options < 4294967296) :
    readLE64 (writeEXR pixels width height options)
        (8 + exrHeaderLength width height options + 8 * i) =
      exrRecordStart width height options i ∧
    slice (writeEXR pixels width height options)
        (8 + exrHeaderLength width height options + 8 * i + 4) 4 =
      [0, 0, 0, 0] ∧
    slice (writeEXR pixels width height options)
        (exrRecordStart width height options i)
        (exrRecordSize width options) =
      scanlineRecord pixels width (options.channels.getD defaultChannels)
        (options.pixelType.getD .half) i := by
  obtain ⟨t, ht⟩ := writeEXR_drop_entry pixels width height options i hi
  have hval : exrRecordStart width height options i < 4294967296 := by
    have hrs : 0 < exrRecordSize width options := by
      unfold exrRecordSize; omega
    have : i * exrRecordSize width options <
        height * exrRecordSize width options :=
      Nat.mul_lt_mul_of_lt_of_le hi (le_refl _) hrs
    unfold exrRecordStart
    omega
  refine ⟨?_, ?_, ?_⟩
  · unfold readLE64 slice
    rw [ht]
    have : offsetTableEntry (exrHeaderLength width height options) height
        (exrRecordSize width options) i ++ t =
        (le32 (8 + exrHeaderLength width height options + 8 * height +
          i * exrRecordSize width options) ++ le32 0) ++ t := rfl
    rw [this, List.take_left' (by simp [length_le32])]
    rw [leValue_le64entry]
    unfold exrRecordStart
    unfold exrRecordStart at hval
    omega
  · unfold slice
    rw [← List.drop_drop, ht]
    have : offsetTableEntry (exrHeaderLength width height options) height
        (exrRecordSize width options) i ++ t =
        le32 (8 + exrHeaderLength width height options + 8 * height +
          i * exrRecordSize width options) ++ (le32 0 ++ t) := by
      simp [offsetTableEntry, List.append_assoc]
    rw [this, List.drop_left' (length_le32 _),
      List.take_left' (length_le32 _)]
    rfl
  · obtain ⟨u, hu⟩ := writeEXR_drop_record pixels width height options i hi
    unfold slice
    rw [hu, List.take_left']
    exact length_scanlineRecord ..

/-- C7 witness: the offset-table theorem applied to a concrete 1×1 red
image with default options. -/
theorem exr_offsetTable_points_to_scanlines_witness :
    readLE64 (writeEXR [1065353216, 0, 0, 1065353216] 1 1 ⟨none, none⟩)
        (8 + exrHeaderLength 1 1 ⟨none, none⟩ + 8 * 0) =
      exrRecordStart 1 1 ⟨none, none⟩ 0 ∧
    slice (writeEXR [1065353216, 0, 0, 1065353216] 1 1 ⟨none, none⟩)
        (8 + exrHeaderLength 1 1 ⟨none, none⟩ + 8 * 0 + 4) 4 =
      [0, 0, 0, 0] ∧
    slice (writeEXR [1065353216, 0, 0, 1065353216] 1 1 ⟨none, none⟩)
        (exrRecordStart 1 1 ⟨none, none⟩ 0) (exrRecordSize 1 ⟨none, none⟩) =
      scanlineRecord [1065353216, 0, 0, 1065353216] 1
        ((⟨none, none⟩ : WriteEXROptions).channels.getD defaultChannels)
        ((⟨none, none⟩ : WriteEXROptions).pixelType.getD .half) 0 :=
  exr_offsetTable_points_to_scanlines [1065353216, 0, 0, 1065353216] 1 1
    ⟨none, none⟩ 0 (by decide) (by decide) (by decide) (by decide)

lemma getChannelIndex_A : getChannelIndex (ascii "A") = 3 := by decide

lemma getChannelIndex_B : getChannelIndex (ascii "B") = 2 := by decide

lemma getChannelIndex_G : getChannelIndex (ascii "G") = 1 := by decide

lemma getChannelIndex_R : getChannelIndex (ascii "R") = 0 := by decide

lemma sortChannels_default :
    sortChannels defaultChannels =
      [ascii "A", ascii "B", ascii "G", ascii "R"] := by decide

/-- C8: each scanline record of a default-channel (RGBA) output starts with
the little-endian int32 row index y (0-based, increasing-Y), then the
little-endian uint32 payload length width·4·pixelSize, then the payload in
which channels appear in alphabetical order A, B, G, R; the sample of
sorted-channel c at column x is the little-endian encoding (2 bytes after
`floatToHalf` for half, 4 bytes for float) of input sample
`pixels[(y·width+x)·4 + idx]` where idx follows A→3, B→2, G→1, R→0. -/
theorem exr_scanline_record_fields (pixels : List Nat) (width height : Nat)
    (optPT : Option EXRPixelType) (y c x : Nat)
    (hy : y < height) (hc : c < 4) (hx : x < width)
    (hh32 : height ≤ 4294967296)
    (hsds : scanlineDataSize width 4 (optPT.getD .half) < 4294967296) :
    readLE32 (writeEXR pixels width height ⟨optPT, none⟩)
        (exrRecordStart width height ⟨optPT, none⟩ y) = y ∧
    readLE32 (writeEXR pixels width height ⟨optPT, none⟩)
        (exrRecordStart width height ⟨optPT, none⟩ y + 4) =
      scanlineDataSize width 4 (optPT.getD .half) ∧
    sortChannels defaultChannels =
      [ascii "A", ascii "B", ascii "G", ascii "R"] ∧
    slice (writeEXR pixels width height ⟨optPT, none⟩)
        (exrRecordStart width height ⟨optPT, none⟩ y + 8 +
          (c * width + x) * pixelSizeOf (optPT.getD .half))
        (pixelSizeOf (optPT.getD .half)) =
      sampleBytes (optPT.getD .half)
        (pixels.getD ((y * width + x) * 4 + [3, 2, 1, 0].getD c 0)
          canonicalNaN) := by
  obtain ⟨t, ht⟩ := writeEXR_drop_record pixels width height ⟨optPT, none⟩ y hy
  set pt := optPT.getD .half with hpt
  have hchan : (WriteEXROptions.mk optPT none).channels.getD defaultChannels =
      defaultChannels := rfl
  have hlen4 : (defaultChannels).length = 4 := rfl
  rw [hchan] at ht
  have hrec : scanlineRecord pixels width defaultChannels pt y ++ t =
      le32 y ++ (le32 (scanlineDataSize width 4 pt) ++
        (scanlinePayload pixels width defaultChannels pt y ++ t)) := by
    simp [scanlineRecord, List.append_assoc, hlen4]
  refine ⟨?_, ?_, sortChannels_default, ?_⟩
  · unfold readLE32 slice
    rw [ht, hrec, List.take_left' (length_le32 _), leValue_le32]
    omega
  · unfold readLE32 slice
    rw [← List.drop_drop, ht, hrec, List.drop_left' (length_le32 _),
      List.take_left' (length_le32 _), leValue_le32]
    omega
  · unfold slice
    have e1 : exrRecordStart width height ⟨optPT, none⟩ y + 8 +
        (c * width + x) * pixelSizeOf pt =
        exrRecordStart width height ⟨optPT, none⟩ y +
          (8 + (c * (width * pixelSizeOf pt) + x * pixelSizeOf pt)) := by
      ring
    rw [e1, ← List.drop_drop, ht]
    have hrec2 : scanlineRecord pixels width defaultChannels pt y ++ t =
        (le32 y ++ le32 (scanlineDataSize width 4 pt)) ++
          (scanlinePayload pixels width defaultChannels pt y ++ t) := by
      simp [scanlineRecord, List.append_assoc, hlen4]
    have e2 : 8 + (c * (width * pixelSizeOf pt) + x * pixelSizeOf pt) =
        (le32 y ++ le32 (scanlineDataSize width 4 pt)).length +
          (c * (width * pixelSizeOf pt) + x * pixelSizeOf pt) := by
      simp [length_le32]
    rw [hrec2, e2, drop_append_len]
    have hmap : (sortChannels defaultChannels).map (fun ch =>
        channelRow pixels width pt y (getChannelIndex ch)) =
        [channelRow pixels width pt y 3, channelRow pixels width pt y 2,
         channelRow pixels width pt y 1, channelRow pixels width pt y 0] := by
      rw [sortChannels_default]
      simp only [List.map_cons, List.map_nil, getChannelIndex_A,
        getChannelIndex_B, getChannelIndex_G, getChannelIndex_R]
    have hpay : scanlinePayload pixels width defaultChannels pt y =
        ([channelRow pixels width pt y 3, channelRow pixels width pt y 2,
          channelRow pixels width pt y 1,
          channelRow pixels width pt y 0]).flatten := by
      unfold scanlinePayload
      rw [hmap]
    rw [hpay, ← List.drop_drop]
    have hconstRows : ∀ r ∈ [channelRow pixels width pt y 3,
        channelRow pixels width pt y 2, channelRow pixels width pt y 1,
        channelRow pixels width pt y 0], r.length = width * pixelSizeOf pt := by
      intro r hr
      simp only [List.mem_cons, List.not_mem_nil, or_false] at hr
      rcases hr with rfl | rfl | rfl | rfl <;> exact length_channelRow ..
    rw [flatten_tail_drop _ _ (width * pixelSizeOf pt) c hconstRows
      (by simpa using hc)]
    interval_cases c <;>
      simp only [List.getD_cons_zero, List.getD_cons_succ] <;>
      unfold channelRow <;>
      rw [flatten_tail_drop _ _ (pixelSizeOf pt) x
          (by intro s hs
              simp only [List.mem_map] at hs
              obtain ⟨x', hx', rfl⟩ := hs
              exact length_sampleBytes ..)
          (by simpa using hx),
        getD_map_range _ _ _ hx,
        List.take_left' (length_sampleBytes ..)]

/-- C8 witness: the scanline-record theorem applied to a concrete 1×1 red
image with default options, sorted channel 0 (A), column 0. -/
theorem exr_scanline_record_fields_witness :
    readLE32 (writeEXR [1065353216, 0, 0, 1065353216] 1 1 ⟨none, none⟩)
        (exrRecordStart 1 1 ⟨none, none⟩ 0) = 0 ∧
    readLE32 (writeEXR [1065353216, 0, 0, 1065353216] 1 1 ⟨none, none⟩)
        (exrRecordStart 1 1 ⟨none, none⟩ 0 + 4) =
      scanlineDataSize 1 4 ((none : Option EXRPixelType).getD .half) ∧
    sortChannels defaultChannels =
      [ascii "A", ascii "B", ascii "G", ascii "R"] ∧
    slice (writeEXR [1065353216, 0, 0, 1065353216] 1 1 ⟨none, none⟩)
        (exrRecordStart 1 1 ⟨none, none⟩ 0 + 8 +
          (0 * 1 + 0) * pixelSizeOf ((none : Option EXRPixelType).getD .half))
        (pixelSizeOf ((none : Option EXRPixelType).getD .half)) =
      sampleBytes ((none : Option EXRPixelType).getD .half)
        (([1065353216, 0, 0, 1065353216] : List Nat).getD
          ((0 * 1 + 0) * 4 + [3, 2, 1, 0].getD 0 0) canonicalNaN) :=
  exr_scanline_record_fields [1065353216, 0, 0, 1065353216] 1 1 none 0 0 0
    (by decide) (by decide) (by decide) (by decide) (by decide)

/-- C9: a channel name whose (ASCII) uppercase form is none of R, G, B, A
falls through `getChannelIndex`'s default branch to index 0, and the
scanline records written for such a channel are byte-for-byte those of the
red channel: the red-channel samples are encoded under the foreign name. -/
theorem getChannelIndex_unknown_encodes_red (name : Bytes)
    (hR : toUpperBytes name ≠ ascii "R") (hG : toUpperBytes name ≠ ascii "G")
    (hB : toUpperBytes name ≠ ascii "B")
    (hA : toUpperBytes name ≠ ascii "A") :
    getChannelIndex name = 0 ∧
    ∀ (pixels : List Nat) (width : Nat) (pt : EXRPixelType) (y : Nat),
      scanlineRecord pixels width [name] pt y =
        scanlineRecord pixels width [ascii "R"] pt y := by
  have hidx : getChannelIndex name = 0 := by
    unfold getChannelIndex
    rw [if_neg hR, if_neg hG, if_neg hB, if_neg hA]
  refine ⟨hidx, ?_⟩
  intro pixels width pt y
  have hs1 : sortChannels [name] = [name] := rfl
  have hs2 : sortChannels [ascii "R"] = [ascii "R"] := rfl
  unfold scanlineRecord scanlinePayload
  rw [hs1, hs2]
  simp only [List.map_cons, List.map_nil, hidx, getChannelIndex_R,
    List.length_cons, List.length_nil]

/-- C9 witness: the unknown channel name "Z" (uppercase Z is not R/G/B/A)
gets index 0 and produces the red channel's scanline record. -/
theorem getChannelIndex_unknown_encodes_red_witness :
    getChannelIndex (ascii "Z") = 0 ∧
    ∀ (pixels : List Nat) (width : Nat) (pt : EXRPixelType) (y : Nat),
      scanlineRecord pixels width [ascii "Z"] pt y =
        scanlineRecord pixels width [ascii "R"] pt y :=
  getChannelIndex_unknown_encodes_red (ascii "Z") (by decide) (by decide)
    (by decide) (by decide)

/-! ## gpu-readback.ts

`readPixelsAsync` dispatches on the device type.  The WebGPU path issues a
texture-to-buffer copy into a 256-byte-row-aligned transfer buffer, maps
it, strips the row padding, and cleans up.  The embedding records the
backend operations the source performs, in order, as a `GPUAction` list;
the mapped transfer buffer's contents (viewed as the element array the
source constructs) are a parameter.  The source performs no validation of
the requested region anywhere. -/

/-- Backend kind (`device.type`). -/
inductive DeviceType where
  | webgpu
  | webgl
  deriving DecidableEq, Repr

/-- Texture formats distinguished by `getBytesPerPixel` /
`format.includes('float')`; `other b` is any unrecognized format, with `b`
recording whether its name contains "float". -/
inductive TexFormat where
  | rgba32float
  | rgba16float
  | rgba8unorm
  | other (isFloat : Bool)
  deriving DecidableEq, Repr

/-- Embedding of `getBytesPerPixel` with its default-4 fallback. -/
def getBytesPerPixel : TexFormat → Nat
  | .rgba32float => 16
  | .rgba16float => 8
  | .rgba8unorm => 4
  | .other _ => 4

/-- Embedding of `format.includes('float')`. -/
def formatIncludesFloat : TexFormat → Bool
  | .rgba32float => true
  | .rgba16float => true
  | .rgba8unorm => false
  | .other b => b

/-- Width, height and format of the source texture. -/
structure TextureInfo where
  width : Nat
  height : Nat
  format : TexFormat
  deriving DecidableEq, Repr

/-- Embedding of `ReadPixelsOptions` (all fields optional). -/
structure ReadPixelsOptions where
  x : Option Nat
  y : Option Nat
  width : Option Nat
  height : Option Nat
  deriving DecidableEq, Repr

/-- Backend operations issued by the readback paths, in program order. -/
inductive GPUAction where
  | createBuffer (size : Nat)
  | copyTextureToBuffer (x y width height bytesPerRow : Nat)
  | submit
  | mapAsync
  | unmap
  | destroyBuffer
  | createFramebuffer
  | readPixelsToArrayWebGL (x y width height : Nat)
  | destroyFramebuffer
  deriving DecidableEq, Repr

/-- Embedding of `ReadPixelsResult` (data as element list). -/
structure ReadPixelsResult where
  data : List Nat
  width : Nat
  height : Nat
  channels : Nat
  deriving DecidableEq, Repr

/-- Embedding of `TypedArray.set(src, offset)` for in-range writes:
overwrite `src.length` elements of `dst` starting at `offset`. -/
def setSlice {α : Type} (dst : List α) (offset : Nat) (src : List α) :
    List α :=
  dst.take offset ++ src ++ dst.drop (offset + src.length)

/-- Embedding of `readPixelsWebGPU`.  `mapped` is the mapped transfer
buffer viewed as the element array the source constructs
(`Float32Array`/`Uint8Array` over the mapped range). -/
def readPixelsWebGPU (texture : TextureInfo) (options : ReadPixelsOptions)
    (mapped : List Nat) : ReadPixelsResult × List GPUAction :=
  let x := options.x.getD 0
  let y := options.y.getD 0
  let width := options.width.getD texture.width
  let height := options.height.getD texture.height
  let bytesPerPixel := getBytesPerPixel texture.format
  let channels := 4
  let bytesPerRow := (width * bytesPerPixel + 255) / 256 * 256
  let bufferSize := bytesPerRow * height
  let isFloat := formatIncludesFloat texture.format
  let srcBytesPerRow := bytesPerRow / (if isFloat then 4 else 1)
  let dstPixelsPerRow := width * channels
  let data := (List.range height).foldl (fun acc row =>
    setSlice acc (row * dstPixelsPerRow)
      ((mapped.drop (row * srcBytesPerRow)).take dstPixelsPerRow))
    (List.replicate (width * height * channels) 0)
  (⟨data, width, height, channels⟩,
   [.createBuffer bufferSize,
    .copyTextureToBuffer x y width height bytesPerRow,
    .submit, .mapAsync, .unmap, .destroyBuffer])

/-- Embedding of `readPixelsWebGL`.  `sourceIsFramebuffer` is the
`'colorAttachments' in source` test; `backendData` is what the blocking
`device.readPixelsToArrayWebGL` fills into the target array. -/
def readPixelsWebGL (texture : TextureInfo) (sourceIsFramebuffer : Bool)
    (options : ReadPixelsOptions) (backendData : List Nat) :
    ReadPixelsResult × List GPUAction :=
  let x := options.x.getD 0
  let y := options.y.getD 0
  let width := options.width.getD texture.width
  let height := options.height.getD texture.height
  let actions :=
    (if sourceIsFramebuffer then ([] : List GPUAction)
     else [.createFramebuffer]) ++
    [GPUAction.readPixelsToArrayWebGL x y width height] ++
    (if sourceIsFramebuffer then ([] : List GPUAction)
     else [.destroyFramebuffer])
  (⟨backendData, width, height, 4⟩, actions)

/-- Embedding of `readPixelsAsync`: dispatch on `device.type`. -/
def readPixelsAsync (deviceType : DeviceType) (texture : TextureInfo)
    (sourceIsFramebuffer : Bool) (options : ReadPixelsOptions)
    (mapped backendData : List Nat) : ReadPixelsResult × List GPUAction :=
  match deviceType with
  | .webgpu => readPixelsWebGPU texture options mapped
  | .webgl => readPixelsWebGL texture sourceIsFramebuffer options backendData

/-- C5 counterexample: a region that exceeds the 4×4 texture's bounds
(x = 2, width = 4, so x + width = 6 > 4) is not rejected: the WebGPU path
still creates the transfer buffer and submits the copy with the requested
region — GPU work is issued and no precondition error exists. -/
theorem readPixelsAsync_oob_issues_gpu_work :
    2 + 4 > 4 ∧
    (readPixelsAsync .webgpu ⟨4, 4, .rgba16float⟩ true
        ⟨some 2, some 0, some 4, some 4⟩ [] []).2 =
      [.createBuffer 1024, .copyTextureToBuffer 2 0 4 4 256, .submit,
       .mapAsync, .unmap, .destroyBuffer] := by
  constructor
  · decide
  · rfl

/-- C5 (amended): neither readback path validates the requested region.
For every texture, every option set (in bounds or not) and every mapped
buffer, the WebGPU path unconditionally creates the transfer buffer and
submits the copy with the requested region verbatim, and the WebGL path
unconditionally performs the blocking read with the requested region. -/
theorem readPixelsAsync_never_validates_region (texture : TextureInfo)
    (options : ReadPixelsOptions) (mapped backendData : List Nat)
    (sourceIsFramebuffer : Bool) :
    (readPixelsWebGPU texture options mapped).2 =
      [.createBuffer ((options.width.getD texture.width *
          getBytesPerPixel texture.format + 255) / 256 * 256 *
          options.height.getD texture.height),
       .copyTextureToBuffer (options.x.getD 0) (options.y.getD 0)
         (options.width.getD texture.width)
         (options.height.getD texture.height)
         ((options.width.getD texture.width *
           getBytesPerPixel texture.format + 255) / 256 * 256),
       .submit, .mapAsync, .unmap, .destroyBuffer] ∧
    GPUAction.readPixelsToArrayWebGL (options.x.getD 0) (options.y.getD 0)
        (options.width.getD texture.width)
        (options.height.getD texture.height) ∈
      (readPixelsWebGL texture sourceIsFramebuffer options backendData).2 := by
  constructor
  · rfl
  · unfold readPixelsWebGL
    cases sourceIsFramebuffer <;> simp

/-- Embedding of `flipPixelsVertically`: allocate a same-length output
(zero-initialized in JS; `default` here, always overwritten in the cases
the claims cover) and copy row y of the input to row height-1-y. -/
def flipPixelsVertically {α : Type} [Inhabited α] (data : List α)
    (width height channels : Nat) : List α :=
  let rowSize := width * channels
  (List.range height).foldl (fun flipped y =>
    setSlice flipped ((height - 1 - y) * rowSize)
      ((data.drop (y * rowSize)).take rowSize))
    (List.replicate data.length default)

/-- Rows 0..height-1 of a row-major buffer. -/
def rowsOf {α : Type} (data : List α) (rowSize height : Nat) :
    List (List α) :=
  (List.range height).map (fun y => (data.drop (y * rowSize)).take rowSize)

lemma take_drop_length_eq {α : Type} (data : List α) (off n : Nat)
    (h : off + n ≤ data.length) : ((data.drop off).take n).length = n := by
  simp only [List.length_take, List.length_drop]
  omega

lemma flatten_chunk {α : Type} (l : List (List α)) (n j : Nat)
    (h : ∀ c ∈ l, c.length = n) (hj : j < l.length) :
    (l.flatten.drop (j * n)).take n = l.getD j [] := by
  rw [flatten_drop_getD l n j h hj, List.take_left']
  rw [List.getD_eq_getElem?_getD, List.getElem?_eq_getElem hj]
  exact h _ (List.getElem_mem hj)

lemma rowsOf_length {α : Type} (data : List α) (rowSize height : Nat) :
    (rowsOf data rowSize height).length = height := by
  simp [rowsOf]

lemma rowsOf_const_length {α : Type} (data : List α) (rowSize height : Nat)
    (hlen : data.length = height * rowSize) :
    ∀ c ∈ rowsOf data rowSize height, c.length = rowSize := by
  intro c hc
  simp only [rowsOf, List.mem_map, List.mem_range] at hc
  obtain ⟨y, hy, rfl⟩ := hc
  apply take_drop_length_eq
  calc y * rowSize + rowSize = (y + 1) * rowSize := by ring
    _ ≤ height * rowSize := Nat.mul_le_mul_right _ hy
    _ = data.length := hlen.symm

lemma rowsOf_getD {α : Type} (data : List α) (rowSize height i : Nat)
    (hi : i < height) :
    (rowsOf data rowSize height).getD i [] =
      (data.drop (i * rowSize)).take rowSize := by
  unfold rowsOf
  exact getD_map_range _ _ _ hi

lemma flip_invariant {α : Type} [Inhabited α] (data : List α)
    (rowSize height : Nat) (hlen : data.length = height * rowSize) :
    ∀ k, k ≤ height →
      (List.range k).foldl (fun flipped y =>
        setSlice flipped ((height - 1 - y) * rowSize)
          ((data.drop (y * rowSize)).take rowSize))
        (List.replicate data.length default) =
      List.replicate ((height - k) * rowSize) default ++
        ((rowsOf data rowSize k).reverse).flatten := by
  intro k
  induction k with
  | zero =>
    intro _
    simp [rowsOf, hlen]
  | succ k ih =>
    intro hk
    rw [List.range_succ, List.foldl_append, ih (by omega)]
    simp only [List.foldl_cons, List.foldl_nil]
    have hrow : ((data.drop (k * rowSize)).take rowSize).length = rowSize := by
      apply take_drop_length_eq
      calc k * rowSize + rowSize = (k + 1) * rowSize := by ring
        _ ≤ height * rowSize := Nat.mul_le_mul_right _ hk
        _ = data.length := hlen.symm
    have hoff : height - 1 - k = height - (k + 1) := by omega
    have hrows : rowsOf data rowSize (k + 1) =
        rowsOf data rowSize k ++ [(data.drop (k * rowSize)).take rowSize] := by
      unfold rowsOf
      rw [List.range_succ, List.map_append, List.map_cons, List.map_nil]
    have hsplit : (height - k) * rowSize =
        (height - (k + 1)) * rowSize + rowSize := by
      have h1 : height - k = (height - (k + 1)) + 1 := by omega
      rw [h1]
      ring
    rw [hrows, List.reverse_append, List.reverse_singleton,
      List.singleton_append, List.flatten_cons]
    unfold setSlice
    rw [hrow, hoff, hsplit]
    set M := (height - (k + 1)) * rowSize with hM
    set R := ((rowsOf data rowSize k).reverse).flatten with hR
    have htake : (List.replicate (M + rowSize) (default : α) ++ R).take M =
        List.replicate M default := by
      rw [List.take_append_eq_append_take, List.take_replicate,
        List.length_replicate, Nat.sub_eq_zero_of_le (by omega),
        List.take_zero, List.append_nil]
      congr 1
      omega
    have hdrop : (List.replicate (M + rowSize) (default : α) ++ R).drop
        (M + rowSize) = R :=
      List.drop_left' (List.length_replicate ..)
    rw [htake, hdrop, List.append_assoc]

lemma flipPixelsVertically_eq {α : Type} [Inhabited α] (data : List α)
    (width height channels : Nat)
    (hlen : data.length = height * (width * channels)) :
    flipPixelsVertically data width height channels =
      ((rowsOf data (width * channels) height).reverse).flatten := by
  have h := flip_invariant data (width * channels) height hlen height
    (le_refl _)
  rw [Nat.sub_self, Nat.zero_mul, List.replicate_zero, List.nil_append] at h
  simpa [flipPixelsVertically] using h

lemma flatten_rowsOf {α : Type} (rowSize : Nat) :
    ∀ (height : Nat) (d : List α), d.length = height * rowSize →
      (rowsOf d rowSize height).flatten = d := by
  intro height
  induction height with
  | zero =>
    intro d hd
    have : d = [] := List.length_eq_zero.mp (by omega)
    subst this
    rfl
  | succ h ih =>
    intro d hd
    have hrows : rowsOf d rowSize (h + 1) =
        d.take rowSize :: (rowsOf (d.drop rowSize) rowSize h) := by
      unfold rowsOf
      rw [List.range_succ_eq_map, List.map_cons]
      congr 1
      · simp
      · rw [List.map_map]
        apply List.map_congr_left
        intro y _
        simp only [Function.comp_apply, List.drop_drop]
        rw [Nat.succ_mul, Nat.add_comm (y * rowSize) rowSize]
    have hdl : (d.drop rowSize).length = h * rowSize := by
      rw [List.length_drop, hd]
      have he : (h + 1) * rowSize = h * rowSize + rowSize := by ring
      omega
    rw [hrows, List.flatten_cons, ih (d.drop rowSize) hdl,
      List.take_append_drop]

/-- C6: for a buffer of length width·height·channels,
`flipPixelsVertically` returns a new buffer of the same length in which
row i of the input occupies row height-1-i of the output, and applying it
twice yields a buffer element-wise equal to the original.  The element
type is generic (covers both 8-bit and floating-point element kinds), and
the function is pure: the input list is untouched. -/
theorem flipPixelsVertically_pure_flip {α : Type} [Inhabited α]
    (data : List α) (width height channels : Nat)
    (hlen : data.length = width * height * channels) :
    (flipPixelsVertically data width height channels).length =
      data.length ∧
    (∀ i, i < height →
      ((flipPixelsVertically data width height channels).drop
          ((height - 1 - i) * (width * channels))).take (width * channels) =
        (data.drop (i * (width * channels))).take (width * channels)) ∧
    flipPixelsVertically (flipPixelsVertically data width height channels)
      width height channels = data := by
  have hlen' : data.length = height * (width * channels) := by
    rw [hlen]; ring
  have hflip := flipPixelsVertically_eq data width height channels hlen'
  have hconst := rowsOf_const_length data (width * channels) height hlen'
  have hconstRev : ∀ c ∈ (rowsOf data (width * channels) height).reverse,
      c.length = width * channels := by
    intro c hc
    exact hconst c (List.mem_reverse.mp hc)
  have hrevlen : (rowsOf data (width * channels) height).reverse.length =
      height := by
    rw [List.length_reverse, rowsOf_length]
  have hfliplen : (flipPixelsVertically data width height channels).length =
      data.length := by
    rw [hflip, flatten_length_const _ (width * channels) hconstRev, hrevlen,
      hlen']
  have hrevgetD : ∀ i, i < height →
      (rowsOf data (width * channels) height).reverse.getD (height - 1 - i)
        [] = (data.drop (i * (width * channels))).take (width * channels) := by
    intro i hi
    rw [List.getD_eq_getElem?_getD,
      List.getElem?_reverse' (height - 1 - i) i
        (by rw [rowsOf_length]; omega),
      ← List.getD_eq_getElem?_getD]
    exact rowsOf_getD data (width * channels) height i hi
  refine ⟨hfliplen, ?_, ?_⟩
  · intro i hi
    rw [hflip, flatten_chunk _ (width * channels) (height - 1 - i) hconstRev
      (by rw [hrevlen]; omega)]
    exact hrevgetD i hi
  · have hlen2 : (flipPixelsVertically data width height channels).length =
        height * (width * channels) := by rw [hfliplen, hlen']
    have hflip2 := flipPixelsVertically_eq
      (flipPixelsVertically data width height channels) width height channels
      hlen2
    have hrows2 : rowsOf (flipPixelsVertically data width height channels)
        (width * channels) height =
        (rowsOf data (width * channels) height).reverse := by
      apply List.ext_getElem
      · rw [rowsOf_length, hrevlen]
      · intro j hj hj'
        have hjh : j < height := by rwa [rowsOf_length] at hj
        have hgetD : (rowsOf (flipPixelsVertically data width height
            channels) (width * channels) height).getD j [] =
            ((rowsOf data (width * channels) height).reverse).getD j [] := by
          rw [rowsOf_getD _ _ _ _ hjh, hflip,
            flatten_chunk _ (width * channels) j hconstRev
              (by rw [hrevlen]; exact hjh)]
        rw [List.getD_eq_getElem?_getD, List.getElem?_eq_getElem hj,
          Option.getD_some, List.getD_eq_getElem?_getD,
          List.getElem?_eq_getElem hj', Option.getD_some] at hgetD
        exact hgetD
    rw [hflip2, hrows2, List.reverse_reverse]
    exact flatten_rowsOf (width * channels) height data hlen'

/-- C6 witness: the flip theorem applied to a concrete 1×2-pixel RGBA
byte buffer. -/
theorem flipPixelsVertically_pure_flip_witness :
    (flipPixelsVertically [1, 2, 3, 4, 5, 6, 7, 8] 1 2 4).length =
      ([1, 2, 3, 4, 5, 6, 7, 8] : List Nat).length ∧
    (∀ i, i < 2 →
      ((flipPixelsVertically [1, 2, 3, 4, 5, 6, 7, 8] 1 2 4).drop
          ((2 - 1 - i) * (1 * 4))).take (1 * 4) =
        (([1, 2, 3, 4, 5, 6, 7, 8] : List Nat).drop (i * (1 * 4))).take
          (1 * 4)) ∧
    flipPixelsVertically (flipPixelsVertically [1, 2, 3, 4, 5, 6, 7, 8]
      1 2 4) 1 2 4 = [1, 2, 3, 4, 5, 6, 7, 8] :=
  flipPixelsVertically_pure_flip [1, 2, 3, 4, 5, 6, 7, 8] 1 2 4 (by decide)

/-! ## hdr-render-loop.ts

`HDRRenderLoop` mutates three observable cells: the deck's `_framebuffer`
prop, its own private `_originalFramebuffer`, and `_isRendering`.
Framebuffer handles are modelled as `Nat` ids; `_framebuffer`'s
null/undefined states collapse to `none` (the code only stores and
restores the value verbatim).  The embedding of each method produces the
ordered list of mutations it performs (`LoopAction`), which `applyTrace`
replays onto a `LoopState`; `yieldFrame` marks a frame produced to the
consumer.  The `onUpdateFrame` hook receives the deck, so it is modelled
as an arbitrary function from the frame number and current `_framebuffer`
to the list of `_framebuffer` values it sets plus a completion flag
(`false` = the hook throws).  `readOk frame = false` models a readback or
encode failure inside that frame. -/

/-- Observable mutation performed by the render loop. -/
inductive LoopAction where
  | setFramebuffer (fb : Option Nat)
  | setOriginal (fb : Option Nat)
  | setIsRendering (b : Bool)
  | yieldFrame (frame : Nat)
  deriving DecidableEq, Repr

/-- Observable state: deck `_framebuffer` prop, loop `_originalFramebuffer`
field, loop `_isRendering` flag. -/
structure LoopState where
  deckFramebuffer : Option Nat
  originalFramebuffer : Option Nat
  isRendering : Bool
  deriving DecidableEq, Repr

/-- Apply one mutation. -/
def applyAction (s : LoopState) : LoopAction → LoopState
  | .setFramebuffer fb => { s with deckFramebuffer := fb }
  | .setOriginal fb => { s with originalFramebuffer := fb }
  | .setIsRendering b => { s with isRendering := b }
  | .yieldFrame _ => s

/-- Replay a mutation trace. -/
def applyTrace (s : LoopState) (tr : List LoopAction) : LoopState :=
  tr.foldl applyAction s

/-- Errors a sequence run can end with. -/
inductive ExportError where
  | concurrency
  | hookFailure
  | readbackFailure
  deriving DecidableEq, Repr

/-- Per-frame body of the `renderSequence` loop, iterated `count` times
from frame number `frame` with current deck framebuffer `fb`: run the
update hook (its `setProps` calls, then abort if it throws), let
`_renderToHDR` set the deck framebuffer to the exporter's, abort if the
readback fails, otherwise yield the frame and continue. -/
def runFrames (exporterFb : Nat)
    (hook : Nat → Option Nat → List (Option Nat) × Bool)
    (readOk : Nat → Bool) :
    Nat → Nat → Option Nat → List LoopAction × Option ExportError
  | _, 0, _ => ([], none)
  | frame, count + 1, fb =>
    let hookRes := hook frame fb
    let hookTrace := hookRes.1.map LoopAction.setFramebuffer
    if hookRes.2 = false then
      (hookTrace, some .hookFailure)
    else
      let tr := hookTrace ++ [LoopAction.setFramebuffer (some exporterFb)]
      if readOk frame = false then
        (tr, some .readbackFailure)
      else
        let rest := runFrames exporterFb hook readOk (frame + 1) count
          (some exporterFb)
        (tr ++ [LoopAction.yieldFrame frame] ++ rest.1, rest.2)

/-- Embedding of `renderSequence`: refuse if `_isRendering`; otherwise set
`_isRendering`, save the deck framebuffer (`_beginExport`), redirect it to
the exporter's, run the frames, and in the `finally` block restore the
saved framebuffer and clear `_originalFramebuffer` (`_endExport`) before
clearing `_isRendering`. -/
def renderSequence (exporterFb : Nat)
    (hook : Nat → Option Nat → List (Option Nat) × Bool)
    (readOk : Nat → Bool) (startFrame endFrame : Nat) (s : LoopState) :
    List LoopAction × Option ExportError :=
  if s.isRendering then
    ([], some .concurrency)
  else
    let saved := s.deckFramebuffer
    let body := runFrames exporterFb hook readOk startFrame
      (endFrame + 1 - startFrame) (some exporterFb)
    ([LoopAction.setIsRendering true, LoopAction.setOriginal saved,
      LoopAction.setFramebuffer (some exporterFb)] ++ body.1 ++
      [LoopAction.setFramebuffer saved, LoopAction.setOriginal none,
       LoopAction.setIsRendering false],
     body.2)

/-- Embedding of the single-frame `renderFrame`: hook, then
`_renderToHDR` (which sets the deck framebuffer to the exporter's), then
readback — with no save/restore bookkeeping around it. -/
def renderFrame (exporterFb : Nat)
    (hook : Nat → Option Nat → List (Option Nat) × Bool)
    (readOk : Nat → Bool) (frame : Nat) (s : LoopState) :
    List LoopAction × Option ExportError :=
  let hookRes := hook frame s.deckFramebuffer
  let hookTrace := hookRes.1.map LoopAction.setFramebuffer
  if hookRes.2 = false then
    (hookTrace, some .hookFailure)
  else
    let tr := hookTrace ++ [LoopAction.setFramebuffer (some exporterFb)]
    if readOk frame = false then
      (tr, some .readbackFailure)
    else
      (tr, none)

/-- C2: whenever `renderSequence` enters the exporting state
(`_isRendering` was false), then for every hook behaviour and every
pattern of readback failures — normal completion, a hook that throws, or
a failed readback in any frame — the mutation trace ends with restoring
the deck's `_framebuffer` to exactly its value at entry, followed (only
after the restoration) by clearing `_isRendering`; replaying the whole
trace leaves the deck framebuffer equal to its original value and
`_isRendering` false. -/
theorem renderSequence_restores_framebuffer (exporterFb : Nat)
    (hook : Nat → Option Nat → List (Option Nat) × Bool)
    (readOk : Nat → Bool) (startFrame endFrame : Nat) (s : LoopState)
    (h : s.isRendering = false) :
    (applyTrace s (renderSequence exporterFb hook readOk startFrame
        endFrame s).1).deckFramebuffer = s.deckFramebuffer ∧
    (applyTrace s (renderSequence exporterFb hook readOk startFrame
        endFrame s).1).isRendering = false ∧
    ∃ pre, (renderSequence exporterFb hook readOk startFrame endFrame s).1 =
      pre ++ [LoopAction.setFramebuffer s.deckFramebuffer,
        LoopAction.setOriginal none, LoopAction.setIsRendering false] := by
  unfold renderSequence
  rw [if_neg (by simp [h])]
  refine ⟨?_, ?_, ?_⟩
  · simp [applyTrace, List.foldl_append, applyAction]
  · simp [applyTrace, List.foldl_append, applyAction]
  · refine ⟨[LoopAction.setIsRendering true,
      LoopAction.setOriginal s.deckFramebuffer,
      LoopAction.setFramebuffer (some exporterFb)] ++
      (runFrames exporterFb hook readOk startFrame
        (endFrame + 1 - startFrame) (some exporterFb)).1, ?_⟩
    simp

/-- C2 witness: a two-frame run from a non-exporting state with an
always-successful hook. -/
theorem renderSequence_restores_framebuffer_witness :
    (applyTrace ⟨some 7, none, false⟩ (renderSequence 5
        (fun _ _ => ([], true)) (fun _ => true) 0 1
        ⟨some 7, none, false⟩).1).deckFramebuffer =
      (⟨some 7, none, false⟩ : LoopState).deckFramebuffer ∧
    (applyTrace ⟨some 7, none, false⟩ (renderSequence 5
        (fun _ _ => ([], true)) (fun _ => true) 0 1
        ⟨some 7, none, false⟩).1).isRendering = false ∧
    ∃ pre, (renderSequence 5 (fun _ _ => ([], true)) (fun _ => true) 0 1
        ⟨some 7, none, false⟩).1 =
      pre ++ [LoopAction.setFramebuffer
          (⟨some 7, none, false⟩ : LoopState).deckFramebuffer,
        LoopAction.setOriginal none, LoopAction.setIsRendering false] :=
  renderSequence_restores_framebuffer 5 (fun _ _ => ([], true))
    (fun _ => true) 0 1 ⟨some 7, none, false⟩ rfl

/-- C3: calling `renderSequence` while `_isRendering` is true fails with
the concurrency error and performs no mutation at all: the trace is empty
(no per-frame work, no yielded frame, no state change), so the in-progress
run's saved framebuffer, flag and pending frames are untouched. -/
theorem renderSequence_concurrency_error (exporterFb : Nat)
    (hook : Nat → Option Nat → List (Option Nat) × Bool)
    (readOk : Nat → Bool) (startFrame endFrame : Nat) (s : LoopState)
    (h : s.isRendering = true) :
    renderSequence exporterFb hook readOk startFrame endFrame s =
      ([], some .concurrency) ∧
    applyTrace s (renderSequence exporterFb hook readOk startFrame
      endFrame s).1 = s := by
  unfold renderSequence
  rw [if_pos (by simp [h])]
  exact ⟨rfl, rfl⟩

/-- C3 witness: a second call on a state already exporting. -/
theorem renderSequence_concurrency_error_witness :
    renderSequence 5 (fun _ _ => ([], true)) (fun _ => true) 0 3
        ⟨some 5, some 7, true⟩ = ([], some .concurrency) ∧
    applyTrace ⟨some 5, some 7, true⟩ (renderSequence 5
      (fun _ _ => ([], true)) (fun _ => true) 0 3
      ⟨some 5, some 7, true⟩).1 = ⟨some 5, some 7, true⟩ :=
  renderSequence_concurrency_error 5 (fun _ _ => ([], true))
    (fun _ => true) 0 3 ⟨some 5, some 7, true⟩ rfl

/-- C10: a successful `renderFrame` performs no save/restore: its trace
contains no `_originalFramebuffer` write, and after it the deck's
`_framebuffer` equals the exporter's framebuffer — not the value it held
before the call (whenever the two differ). -/
theorem renderFrame_leaves_exporter_framebuffer (exporterFb : Nat)
    (hook : Nat → Option Nat → List (Option Nat) × Bool)
    (readOk : Nat → Bool) (frame : Nat) (s : LoopState)
    (hhook : (hook frame s.deckFramebuffer).2 = true)
    (hread : readOk frame = true) :
    (renderFrame exporterFb hook readOk frame s).2 = none ∧
    (applyTrace s (renderFrame exporterFb hook readOk frame
        s).1).deckFramebuffer = some exporterFb ∧
    (∀ v, LoopAction.setOriginal v ∉
      (renderFrame exporterFb hook readOk frame s).1) ∧
    (s.deckFramebuffer ≠ some exporterFb →
      (applyTrace s (renderFrame exporterFb hook readOk frame
        s).1).deckFramebuffer ≠ s.deckFramebuffer) := by
  unfold renderFrame
  rw [if_neg (by simp [hhook]), if_neg (by simp [hread])]
  refine ⟨rfl, ?_, ?_, ?_⟩
  · simp [applyTrace, List.foldl_append, applyAction]
  · intro v
    simp only [List.mem_append, List.mem_map, List.mem_singleton]
    rintro (⟨_, _, h⟩ | h) <;> exact absurd h (by simp)
  · intro hne
    simp only [applyTrace, List.foldl_append, applyAction, List.foldl_cons,
      List.foldl_nil]
    exact fun hcontra => hne hcontra.symm

/-- C10 witness: a successful single-frame render from framebuffer 7 with
exporter framebuffer 5. -/
theorem renderFrame_leaves_exporter_framebuffer_witness :
    (renderFrame 5 (fun _ _ => ([], true)) (fun _ => true) 0
      ⟨some 7, none, false⟩).2 = none ∧
    (applyTrace ⟨some 7, none, false⟩ (renderFrame 5 (fun _ _ => ([], true))
      (fun _ => true) 0 ⟨some 7, none, false⟩).1).deckFramebuffer = some 5 ∧
    (∀ v, LoopAction.setOriginal v ∉
      (renderFrame 5 (fun _ _ => ([], true)) (fun _ => true) 0
        ⟨some 7, none, false⟩).1) ∧
    ((⟨some 7, none, false⟩ : LoopState).deckFramebuffer ≠ some 5 →
      (applyTrace ⟨some 7, none, false⟩ (renderFrame 5
        (fun _ _ => ([], true)) (fun _ => true) 0
        ⟨some 7, none, false⟩).1).deckFramebuffer ≠
        (⟨some 7, none, false⟩ : LoopState).deckFramebuffer) :=
  renderFrame_leaves_exporter_framebuffer 5 (fun _ _ => ([], true))
    (fun _ => true) 0 ⟨some 7, none, false⟩ rfl rfl

/-- C1 witness: the quantified parts of the boundary-value theorem applied
to concrete inputs — the canonical NaN 0x7FC00000 (top mantissa bit set)
and the tiny denormal bit pattern 1 (rebiased exponent -112 < -10). -/
theorem floatToHalf_boundary_values_witness :
    ((floatToHalf 0x7FC00000 >>> 10) &&& 0x1f = 0x1f ∧
      floatToHalf 0x7FC00000 &&& 0x3ff ≠ 0) ∧
    (floatToHalf 1 = sign32 1 ∧ (sign32 1 = 0 ∨ sign32 1 = 0x8000)) :=
  ⟨floatToHalf_boundary_values.2.2.2.2.2.2.2.1 0x7FC00000 (by decide)
      (by decide),
    floatToHalf_boundary_values.2.2.2.2.2.2.2.2 1 (by decide)⟩

end DeckGL
